import Mathlib

/-!
# Verification of the AI-transcription pipeline specification

Shallow embedding of the repository's launcher (`src/main.pyw`) and of the
core pipeline components described in the specification (AudioPreparer,
Segmenter, TranscriptionAdapter retry policy, TextMerger,
PipelineOrchestrator).  The repository's `src/` directory ships only the
launcher; the pipeline components are modelled directly from the
specification text, as indicated on each definition.
-/

namespace AITrans

/-! ## Launcher (`src/main.pyw`)

`main.pyw` runs under `pythonw.exe`, where `sys.stdout` / `sys.stderr` may be
`None`.  The module-level guard replaces a `None` stream with a writable
handle to `os.devnull`, then imports `main` and calls `main()`
unconditionally. -/

inductive StreamTarget where
  | console : StreamTarget
  | devnull : StreamTarget
deriving DecidableEq, Repr

structure Handle where
  target : StreamTarget
  writable : Bool
deriving DecidableEq, Repr

/-- The handle produced by `open(os.devnull, "w")`: a writable handle to the
null device. -/
def devnullWriteHandle : Handle :=
  { target := StreamTarget.devnull, writable := true }

structure SysStreams where
  stdout : Option Handle
  stderr : Option Handle
deriving DecidableEq, Repr

/-- `if sys.stdout is None: sys.stdout = open(os.devnull, "w")` — the guard
applied to one stream. -/
def redirectIfNone (s : Option Handle) : Option Handle :=
  match s with
  | none => some devnullWriteHandle
  | some h => some h

structure LaunchResult where
  streams : SysStreams
  mainInvoked : Bool
deriving DecidableEq, Repr

/-- The whole of `src/main.pyw` at module level: guard both streams, then
`from main import main; main()`. -/
def launcher (s : SysStreams) : LaunchResult :=
  { streams :=
      { stdout := redirectIfNone s.stdout
        stderr := redirectIfNone s.stderr }
    mainInvoked := true }

/-! ## Segmenter

Modelled from the spec, §4.2: input is a prepared audio of a given total
duration (seconds, `ℕ`), a max segment duration and an overlap length.  If
`duration ≤ maxDur` a single segment `[0, duration)` with no overlap
metadata is produced; otherwise `⌈duration / maxDur⌉` segments, the `i`-th
cut spanning `[i·maxDur, min ((i+1)·maxDur) duration)`, each segment after
the first starting `overlap` seconds before the previous strict cut point. -/

structure Segment where
  index : ℕ
  start_time : ℕ
  end_time : ℕ
  overlap_with_prev : ℕ
deriving DecidableEq, Repr

/-- Modelled from the spec: `segment count = ceil(duration / max_segment_duration)`
(§4.2); the Segmenter implementation is absent from `src/`. -/
def segmentCount (duration maxDur : ℕ) : ℕ :=
  (duration + maxDur - 1) / maxDur

/-- Modelled from the spec: the `i`-th segment in the multi-segment case
(§4.2).  The strict cut point of segment `i` is `i * maxDur`; every segment
after the first starts `overlap` seconds earlier and records that overlap;
the end boundary is clamped to not exceed the total duration. -/
def mkSegment (duration maxDur overlap i : ℕ) : Segment :=
  { index := i
    start_time := i * maxDur - (if i = 0 then 0 else overlap)
    end_time := min ((i + 1) * maxDur) duration
    overlap_with_prev := if i = 0 then 0 else overlap }

/-- Modelled from the spec: the Segmenter (§4.2), absent from `src/`. -/
def segmenter (duration maxDur overlap : ℕ) : List Segment :=
  if duration ≤ maxDur then
    [{ index := 0, start_time := 0, end_time := duration, overlap_with_prev := 0 }]
  else
    (List.range (segmentCount duration maxDur)).map (mkSegment duration maxDur overlap)

/-- The start of a segment's non-overlapping span: its start time plus the
part shared with the previous segment. -/
def nonOverlapStart (s : Segment) : ℕ :=
  s.start_time + s.overlap_with_prev

theorem segmentCount_pos {d m : ℕ} (hm : 0 < m) (hd : 0 < d) :
    0 < segmentCount d m := by
  have h : 1 ≤ (d + m - 1) / m := (Nat.le_div_iff_mul_le hm).mpr (by omega)
  simpa [segmentCount] using h

theorem mul_lt_of_lt_segmentCount {d m i : ℕ} (hm : 0 < m)
    (hi : i < segmentCount d m) : i * m < d := by
  have h1 : i + 1 ≤ (d + m - 1) / m := hi
  have h2 : (i + 1) * m ≤ d + m - 1 := (Nat.le_div_iff_mul_le hm).mp h1
  rw [Nat.add_mul] at h2
  omega

theorem le_segmentCount_mul {d m : ℕ} (hm : 0 < m) :
    d ≤ segmentCount d m * m := by
  have h := Nat.div_add_mod (d + m - 1) m
  have h2 : (d + m - 1) % m < m := Nat.mod_lt _ hm
  rw [segmentCount, Nat.mul_comm]
  omega

theorem nonOverlapStart_mkSegment {d m ov : ℕ} (hov : ov ≤ m) (i : ℕ) :
    nonOverlapStart (mkSegment d m ov i) = i * m := by
  rcases Nat.eq_zero_or_pos i with h0 | hpos
  · subst h0; simp [mkSegment, nonOverlapStart]
  · have hne : i ≠ 0 := Nat.pos_iff_ne_zero.mp hpos
    have hle : ov ≤ i * m := le_trans hov (Nat.le_mul_of_pos_left m hpos)
    simp only [mkSegment, nonOverlapStart, if_neg hne]
    omega

theorem end_time_mkSegment (d m ov i : ℕ) :
    (mkSegment d m ov i).end_time = min ((i + 1) * m) d := rfl

theorem segmenter_of_lt {d m ov : ℕ} (hd : m < d) :
    segmenter d m ov =
      (List.range (segmentCount d m)).map (mkSegment d m ov) := by
  simp [segmenter, Nat.not_le.mpr hd]

/-- **C1.** For every input whose total duration exceeds the max segment
duration, the Segmenter's output is a non-empty ordered list of segments
whose non-overlapping spans tile `[0, duration)`: the first span starts at
`0`, each span starts exactly where the previous segment ends (no gap, no
double-counted range), every span is non-empty, and the final segment's
end time equals the total duration exactly. -/
theorem segmenter_spans_cover (d m ov : ℕ) (hm : 0 < m) (hd : m < d)
    (hov : ov ≤ m) :
    segmenter d m ov ≠ [] ∧
    Option.map nonOverlapStart (segmenter d m ov).head? = some 0 ∧
    List.Chain' (fun a b => nonOverlapStart b = a.end_time) (segmenter d m ov) ∧
    (∀ s ∈ segmenter d m ov, nonOverlapStart s < s.end_time) ∧
    Option.map Segment.end_time (segmenter d m ov).getLast? = some d := by
  have hd0 : 0 < d := lt_trans hm hd
  have hc : 0 < segmentCount d m := segmentCount_pos hm hd0
  obtain ⟨c, hcc⟩ : ∃ c, segmentCount d m = c + 1 :=
    ⟨segmentCount d m - 1, by omega⟩
  rw [segmenter_of_lt hd, hcc]
  refine ⟨by simp, ?_, ?_, ?_, ?_⟩
  · rw [List.head?_map, List.range_succ_eq_map]
    simp [nonOverlapStart_mkSegment hov 0]
  · rw [List.chain'_map, List.chain'_range_succ]
    intro i hi
    rw [nonOverlapStart_mkSegment hov, end_time_mkSegment]
    have : (i + 1) * m < d := by
      refine mul_lt_of_lt_segmentCount hm ?_
      omega
    rw [Nat.succ_eq_add_one, min_eq_left (le_of_lt this)]
  · intro s hs
    rw [List.mem_map] at hs
    obtain ⟨i, hi, rfl⟩ := hs
    rw [List.mem_range] at hi
    rw [nonOverlapStart_mkSegment hov, end_time_mkSegment]
    have h1 : i * m < d := mul_lt_of_lt_segmentCount hm (by omega)
    have h2 : i * m < (i + 1) * m := by rw [Nat.add_mul]; omega
    exact lt_min h2 h1
  · rw [List.getLast?_map, List.range_succ, List.getLast?_concat]
    have h1 : d ≤ (c + 1) * m := by rw [← hcc]; exact le_segmentCount_mul hm
    simp [end_time_mkSegment, min_eq_right h1]

/-- Closed instance of `segmenter_spans_cover` at duration 2700 s, max
segment 1200 s, overlap 10 s. -/
theorem segmenter_spans_cover_witness :
    segmenter 2700 1200 10 ≠ [] ∧
    Option.map nonOverlapStart (segmenter 2700 1200 10).head? = some 0 ∧
    List.Chain' (fun a b => nonOverlapStart b = a.end_time)
      (segmenter 2700 1200 10) ∧
    (∀ s ∈ segmenter 2700 1200 10, nonOverlapStart s < s.end_time) ∧
    Option.map Segment.end_time (segmenter 2700 1200 10).getLast? =
      some 2700 :=
  segmenter_spans_cover 2700 1200 10 (by decide) (by decide) (by decide)

/-- **C2.** For every input whose total duration is at most the max segment
duration, the Segmenter produces exactly one segment spanning `[0, duration)`
carrying no overlap metadata (`overlap_with_prev = 0`). -/
theorem segmenter_single_segment (d m ov : ℕ) (hle : d ≤ m) :
    segmenter d m ov =
      [{ index := 0, start_time := 0, end_time := d, overlap_with_prev := 0 }] := by
  simp [segmenter, hle]

/-- Closed instance of `segmenter_single_segment` at a 300 s input with a
1200 s max segment duration. -/
theorem segmenter_single_segment_witness :
    segmenter 300 1200 10 =
      [{ index := 0, start_time := 0, end_time := 300, overlap_with_prev := 0 }] :=
  segmenter_single_segment 300 1200 10 (by decide)

/-- **C3.** For every input whose total duration exceeds the max segment
duration, the Segmenter produces exactly `⌈duration / maxDur⌉` segments
(`segmentCount` is the spec's ceiling formula `(d + m - 1) / m`); every
segment after the first starts `overlap` seconds before the strict cut point
`i * maxDur` of the previous segment's end; every boundary is clamped to not
exceed the total duration; and in particular a 2700 s (45 min) input with a
1200 s (20 min) max segment and 10 s overlap yields exactly 3 segments. -/
theorem segmenter_count_and_starts (d m ov : ℕ) (_hm : 0 < m) (hd : m < d)
    (hov : ov ≤ m) :
    (segmenter d m ov).length = segmentCount d m ∧
    (∀ i, 0 < i → i < segmentCount d m →
      Option.map (fun s => s.start_time + ov) (segmenter d m ov)[i]? =
        some (i * m)) ∧
    (∀ s ∈ segmenter d m ov, s.end_time ≤ d) ∧
    (segmenter 2700 1200 10).length = 3 := by
  refine ⟨?_, ?_, ?_, by decide⟩
  · rw [segmenter_of_lt hd]; simp
  · intro i hpos hi
    have hne : i ≠ 0 := Nat.pos_iff_ne_zero.mp hpos
    have hle : ov ≤ i * m := le_trans hov (Nat.le_mul_of_pos_left m hpos)
    rw [segmenter_of_lt hd, List.getElem?_map, List.getElem?_range hi]
    simp [mkSegment, hne]
    omega
  · intro s hs
    rw [segmenter_of_lt hd] at hs
    rw [List.mem_map] at hs
    obtain ⟨i, hi, rfl⟩ := hs
    rw [end_time_mkSegment]
    exact min_le_right _ _

/-- Closed instance of `segmenter_count_and_starts` at duration 2700 s, max
segment 1200 s, overlap 10 s: 3 segments, second segment starting at
1190 s. -/
theorem segmenter_count_and_starts_witness :
    (segmenter 2700 1200 10).length = 3 ∧
    Option.map (fun s => s.start_time + 10) (segmenter 2700 1200 10)[1]? =
      some 1200 := by
  have h := segmenter_count_and_starts 2700 1200 10 (by decide) (by decide)
    (by decide)
  exact ⟨h.2.2.2, h.2.1 1 (by decide) (by decide)⟩

/-- **C10.** For every startup state of `src/main.pyw`: a `None`
`sys.stdout` (resp. `sys.stderr`) is replaced by a writable handle to
`os.devnull`, a non-`None` one is left unchanged, `main()` is invoked
unconditionally, and after the guard neither stream is `None`, so a write
can never fail on a `None` stream. -/
theorem launcher_guards_streams (s : SysStreams) :
    (s.stdout = none → (launcher s).streams.stdout = some devnullWriteHandle) ∧
    (s.stderr = none → (launcher s).streams.stderr = some devnullWriteHandle) ∧
    (∀ h, s.stdout = some h → (launcher s).streams.stdout = some h) ∧
    (∀ h, s.stderr = some h → (launcher s).streams.stderr = some h) ∧
    (launcher s).mainInvoked = true ∧
    devnullWriteHandle.writable = true ∧
    (launcher s).streams.stdout ≠ none ∧
    (launcher s).streams.stderr ≠ none := by
  obtain ⟨o, e⟩ := s
  cases o <;> cases e <;>
    simp [launcher, redirectIfNone, devnullWriteHandle]

/-- Closed instance of `launcher_guards_streams` at the `pythonw.exe` startup
state where both streams are `None`. -/
theorem launcher_guards_streams_witness :
    (launcher { stdout := none, stderr := none }).streams.stdout =
      some devnullWriteHandle ∧
    (launcher { stdout := none, stderr := none }).streams.stderr =
      some devnullWriteHandle ∧
    (launcher { stdout := none, stderr := none }).mainInvoked = true := by
  have h := launcher_guards_streams { stdout := none, stderr := none }
  exact ⟨h.1 rfl, h.2.1 rfl, h.2.2.2.2.1⟩

/-! ## TextMerger

Modelled from the spec, §4.4: to merge two adjacent transcript fragments,
take a trailing window of fragment N and a leading window of fragment N+1,
search for the longest span that is both a prefix of the leading window and
occurs in the trailing window; if its length clears the minimum-match
threshold, drop that matched prefix from fragment N+1 before concatenation;
otherwise fall back to concatenation with a configurable separator and
raise the non-fatal `MergeAmbiguityWarning` (modelled as the Boolean
component of the result — the merge itself is total and never fails). -/

abbrev Text := List Char

structure MergeConfig where
  windowSize : ℕ
  minMatch : ℕ
  separator : Text

/-- The trailing window of fragment N's text (§4.4 step 1). -/
def trailingWindow (w : ℕ) (a : Text) : Text :=
  a.drop (a.length - w)

/-- The leading window of fragment N+1's text (§4.4 step 1). -/
def leadingWindow (w : ℕ) (b : Text) : Text :=
  b.take w

/-- Modelled from the spec: the longest `k` such that the length-`k` prefix
of the leading window occurs as a contiguous span of the trailing window
(§4.4 step 2); the TextMerger implementation is absent from `src/`. -/
def longestOverlap (tw lw : Text) : ℕ :=
  (List.range (lw.length + 1)).foldl
    (fun acc k => if lw.take k <:+: tw then k else acc) 0

/-- Modelled from the spec: merge of two adjacent fragments (§4.4 steps
3–4), returning the merged text and whether the ambiguity fallback was
taken (`MergeAmbiguityWarning`). -/
def mergeTwoW (cfg : MergeConfig) (a b : Text) : Text × Bool :=
  let k := longestOverlap (trailingWindow cfg.windowSize a)
    (leadingWindow cfg.windowSize b)
  if 0 < k ∧ cfg.minMatch ≤ k then (a ++ b.drop k, false)
  else (a ++ cfg.separator ++ b, true)

/-- The merged text of two adjacent fragments. -/
def mergeTwo (cfg : MergeConfig) (a b : Text) : Text :=
  (mergeTwoW cfg a b).1

theorem foldl_pick (P : ℕ → Prop) [DecidablePred P] (l : List ℕ) (acc : ℕ) :
    l.foldl (fun a k => if P k then k else a) acc = acc ∨
    (P (l.foldl (fun a k => if P k then k else a) acc) ∧
      l.foldl (fun a k => if P k then k else a) acc ∈ l) := by
  induction l generalizing acc with
  | nil => left; rfl
  | cons x xs ih =>
    simp only [List.foldl_cons]
    by_cases hx : P x
    · rw [if_pos hx]
      rcases ih x with h | ⟨hp, hmem⟩
      · right
        rw [h]
        exact ⟨hx, List.mem_cons_self x xs⟩
      · right; exact ⟨hp, List.mem_cons_of_mem _ hmem⟩
    · rw [if_neg hx]
      rcases ih acc with h | ⟨hp, hmem⟩
      · left; exact h
      · right; exact ⟨hp, List.mem_cons_of_mem _ hmem⟩

theorem longestOverlap_spec (tw lw : Text) :
    longestOverlap tw lw = 0 ∨
    ((lw.take (longestOverlap tw lw) <:+: tw) ∧
      longestOverlap tw lw ≤ lw.length) := by
  unfold longestOverlap
  rcases foldl_pick (fun k => lw.take k <:+: tw)
      (List.range (lw.length + 1)) 0 with h | ⟨hp, hmem⟩
  · left; exact h
  · right
    exact ⟨hp, by simpa [Nat.lt_succ_iff] using List.mem_range.mp hmem⟩

/-- **C4.** When two adjacent fragments share a matching span above the
minimum-match threshold at the join point, the matched prefix (of length
`longestOverlap`) is dropped from the second fragment before concatenation:
the merge result is `a ++ b.drop k`, and that dropped prefix does occur in
`a`'s trailing window, so the duplicated text appears exactly once.  The
witness instantiates the spec's example: "…the quick brown fox" merged with
"brown fox jumps over…" yields "…the quick brown fox jumps over…". -/
theorem mergeTwo_drops_matched (cfg : MergeConfig) (a b : Text)
    (h0 : 0 < longestOverlap (trailingWindow cfg.windowSize a)
      (leadingWindow cfg.windowSize b))
    (hmin : cfg.minMatch ≤ longestOverlap (trailingWindow cfg.windowSize a)
      (leadingWindow cfg.windowSize b)) :
    mergeTwo cfg a b =
      a ++ b.drop (longestOverlap (trailingWindow cfg.windowSize a)
        (leadingWindow cfg.windowSize b)) ∧
    ((leadingWindow cfg.windowSize b).take
        (longestOverlap (trailingWindow cfg.windowSize a)
          (leadingWindow cfg.windowSize b)) <:+:
      trailingWindow cfg.windowSize a) := by
  constructor
  · rw [mergeTwo, mergeTwoW]
    simp only [if_pos (And.intro h0 hmin)]
  · rcases longestOverlap_spec (trailingWindow cfg.windowSize a)
        (leadingWindow cfg.windowSize b) with h | ⟨hp, _⟩
    · omega
    · exact hp

/-- Closed instance of `mergeTwo_drops_matched` on the spec's "quick brown
fox" example. -/
theorem mergeTwo_drops_matched_witness :
    mergeTwo { windowSize := 12, minMatch := 4, separator := [' '] }
      "the quick brown fox".data "brown fox jumps over".data =
      "the quick brown fox jumps over".data := by
  have h := mergeTwo_drops_matched
    { windowSize := 12, minMatch := 4, separator := [' '] }
    "the quick brown fox".data "brown fox jumps over".data
    (by decide) (by decide)
  rw [h.1]
  decide

/-- **C5.** The TextMerger is idempotent on already-non-overlapping
fragments: when no span of the second fragment's leading window that clears
the minimum-match threshold occurs in the first fragment's trailing window
(no actual duplicated content at the join point), the merge result is the
simple concatenation of the two texts with the configured separator,
deleting nothing from either fragment. -/
theorem mergeTwo_no_overlap_concat (cfg : MergeConfig) (a b : Text)
    (hno : ∀ k, k ≤ (leadingWindow cfg.windowSize b).length → 0 < k →
      cfg.minMatch ≤ k →
      ¬((leadingWindow cfg.windowSize b).take k <:+:
        trailingWindow cfg.windowSize a)) :
    mergeTwo cfg a b = a ++ cfg.separator ++ b := by
  rw [mergeTwo, mergeTwoW]
  have hcond : ¬(0 < longestOverlap (trailingWindow cfg.windowSize a)
      (leadingWindow cfg.windowSize b) ∧
      cfg.minMatch ≤ longestOverlap (trailingWindow cfg.windowSize a)
        (leadingWindow cfg.windowSize b)) := by
    rintro ⟨h0, hmin⟩
    rcases longestOverlap_spec (trailingWindow cfg.windowSize a)
        (leadingWindow cfg.windowSize b) with h | ⟨hp, hle⟩
    · omega
    · exact hno _ hle h0 hmin hp
  simp only [if_neg hcond]

/-- Closed instance of `mergeTwo_no_overlap_concat` on the spec's example:
"…end of segment one." followed by "Completely unrelated start…" is joined
by the separator with nothing deleted. -/
theorem mergeTwo_no_overlap_concat_witness :
    mergeTwo { windowSize := 20, minMatch := 5, separator := ['\n'] }
      "end of segment one.".data "Completely unrelated start".data =
      "end of segment one.".data ++ ['\n'] ++
        "Completely unrelated start".data :=
  mergeTwo_no_overlap_concat
    { windowSize := 20, minMatch := 5, separator := ['\n'] }
    "end of segment one.".data "Completely unrelated start".data
    (by decide)

/-- **C6.** When no sufficiently confident overlap match is found (the
match length does not clear the positivity and minimum-match conditions),
the TextMerger falls back to concatenating the two fragments with the
configured separator rather than guessing a deletion: the first fragment is
an intact initial span and the second an intact final span of the result,
and the `MergeAmbiguityWarning` flag is raised.  The merge function is
total — the warning is the whole effect, never a run failure. -/
theorem mergeTwoW_fallback_warning (cfg : MergeConfig) (a b : Text)
    (hno : ¬(0 < longestOverlap (trailingWindow cfg.windowSize a)
        (leadingWindow cfg.windowSize b) ∧
      cfg.minMatch ≤ longestOverlap (trailingWindow cfg.windowSize a)
        (leadingWindow cfg.windowSize b))) :
    mergeTwoW cfg a b = (a ++ cfg.separator ++ b, true) ∧
    (a <+: (mergeTwoW cfg a b).1) ∧
    (b <:+ (mergeTwoW cfg a b).1) := by
  have hw : mergeTwoW cfg a b = (a ++ cfg.separator ++ b, true) := by
    rw [mergeTwoW]
    simp only [if_neg hno]
  refine ⟨hw, ?_, ?_⟩
  · rw [hw]
    exact ⟨cfg.separator ++ b, by simp⟩
  · rw [hw]
    exact ⟨a ++ cfg.separator, by simp⟩

/-- Closed instance of `mergeTwoW_fallback_warning`: two unrelated greetings
are separator-joined and the ambiguity warning is raised. -/
theorem mergeTwoW_fallback_warning_witness :
    mergeTwoW { windowSize := 10, minMatch := 5, separator := ['\n'] }
      "hello world".data "goodbye now".data =
      ("hello world".data ++ ['\n'] ++ "goodbye now".data, true) :=
  (mergeTwoW_fallback_warning
    { windowSize := 10, minMatch := 5, separator := ['\n'] }
    "hello world".data "goodbye now".data (by decide)).1

/-! ## TranscriptionAdapter retry policy

Modelled from the spec, §4.3 and §7: a per-segment transcription attempt
fails with `TranscriptionBackendError(retryable)`; the Orchestrator retries
only when `retryable` is true, with a bounded number of attempts; a
non-retryable failure aborts the segment immediately.  The adapter is a
function from the attempt number to its outcome; `retryFrom` returns the
final outcome and the number of adapter invocations. -/

structure BackendError where
  retryable : Bool
deriving DecidableEq, Repr

/-- Modelled from the spec: the bounded retry loop (§4.3): try the current
attempt; on success stop; on a retryable error with attempts remaining move
to the next attempt; otherwise surface the error.  The second component
counts adapter invocations. -/
def retryFrom (adapter : ℕ → Except BackendError Text) :
    ℕ → ℕ → Except BackendError Text × ℕ
  | _, 0 => (Except.error { retryable := false }, 0)
  | attempt, fuel + 1 =>
    match adapter attempt with
    | Except.ok t => (Except.ok t, 1)
    | Except.error e =>
      if e.retryable && fuel != 0 then
        let r := retryFrom adapter (attempt + 1) fuel
        (r.1, r.2 + 1)
      else (Except.error e, 1)

/-- Transcribe one segment with at most `maxAttempts` adapter calls. -/
def transcribeSegment (adapter : ℕ → Except BackendError Text)
    (maxAttempts : ℕ) : Except BackendError Text × ℕ :=
  retryFrom adapter 0 maxAttempts

theorem retryFrom_calls_le (adapter : ℕ → Except BackendError Text)
    (fuel attempt : ℕ) : (retryFrom adapter attempt fuel).2 ≤ fuel := by
  induction fuel generalizing attempt with
  | zero => simp [retryFrom]
  | succ f ih =>
    rw [retryFrom]
    cases hA : adapter attempt with
    | ok t => simp
    | error e =>
      dsimp only
      split
      · have := ih (attempt + 1)
        simp only [Prod.snd]
        omega
      · simp

/-- **C7.** Per-segment retry policy: the number of adapter invocations is
bounded by `maxAttempts`; a non-retryable error on the first attempt fails
the segment immediately after exactly one invocation; with 3 allowed
attempts, retryable errors on attempts 1 and 2 followed by success on
attempt 3 let the segment ultimately succeed, using exactly 3
invocations. -/
theorem orchestrator_retry_policy (adapter : ℕ → Except BackendError Text)
    (maxA : ℕ) :
    ((transcribeSegment adapter maxA).2 ≤ maxA) ∧
    (∀ e, adapter 0 = Except.error e → e.retryable = false → 0 < maxA →
      transcribeSegment adapter maxA = (Except.error e, 1)) ∧
    (∀ e₁ e₂ t, adapter 0 = Except.error e₁ → e₁.retryable = true →
      adapter 1 = Except.error e₂ → e₂.retryable = true →
      adapter 2 = Except.ok t →
      transcribeSegment adapter 3 = (Except.ok t, 3)) := by
  refine ⟨retryFrom_calls_le adapter maxA 0, ?_, ?_⟩
  · intro e ha hret hpos
    obtain ⟨f, rfl⟩ : ∃ f, maxA = f + 1 := ⟨maxA - 1, by omega⟩
    rw [transcribeSegment, retryFrom, ha]
    simp [hret]
  · intro e₁ e₂ t h0 h0r h1 h1r h2
    simp [transcribeSegment, retryFrom, h0, h0r, h1, h1r, h2]

/-- Closed instance of `orchestrator_retry_policy`: an adapter failing
retryably on attempts 0 and 1 and succeeding on attempt 2 ultimately
succeeds within the 3-attempt bound. -/
theorem orchestrator_retry_policy_witness :
    transcribeSegment
      (fun n => if n < 2 then Except.error { retryable := true }
        else Except.ok ['x']) 3 =
      (Except.ok ['x'], 3) :=
  (orchestrator_retry_policy
    (fun n => if n < 2 then Except.error { retryable := true }
      else Except.ok ['x']) 3).2.2
    { retryable := true } { retryable := true } ['x'] rfl rfl rfl rfl rfl

/-! ## PipelineOrchestrator: sequential run with cooperative cancellation

Modelled from the spec, §4.5: the Orchestrator iterates segments in index
order, polling the cancellation token between segments; on cancellation it
stops before invoking the adapter for the next segment, preserving the
merged text built so far; otherwise it invokes the adapter and folds the
fragment into the merged transcript via the TextMerger (a left fold). -/

structure RunState where
  merged : Option Text
  called : List ℕ
  cancelled : Bool
deriving DecidableEq, Repr

/-- One step of the merged-transcript accumulator: the first fragment is
taken whole, every later fragment is merged against the already-merged
text (§4.4, left fold). -/
def stepAcc (cfg : MergeConfig) (adapter : ℕ → Text) (acc : Option Text)
    (i : ℕ) : Option Text :=
  match acc with
  | none => some (adapter i)
  | some t => some (mergeTwo cfg t (adapter i))

/-- Modelled from the spec: the Orchestrator's transcription loop (§4.5),
absent from `src/`.  `called` records the segments for which the adapter
was invoked. -/
def runSegmentsFrom (cfg : MergeConfig) (adapter : ℕ → Text)
    (cancel : ℕ → Bool) :
    List ℕ → Option Text → List ℕ → RunState
  | [], acc, called => { merged := acc, called := called, cancelled := false }
  | i :: rest, acc, called =>
    if cancel i then { merged := acc, called := called, cancelled := true }
    else runSegmentsFrom cfg adapter cancel rest (stepAcc cfg adapter acc i)
      (called ++ [i])

/-- A full pipeline run over `n` segments. -/
def runPipeline (cfg : MergeConfig) (adapter : ℕ → Text)
    (cancel : ℕ → Bool) (n : ℕ) : RunState :=
  runSegmentsFrom cfg adapter cancel (List.range n) none []

/-- Folding a list of fragments into one merged transcript (§4.4's left
fold; `none` for an empty run). -/
def mergeFragments (cfg : MergeConfig) : List Text → Option Text
  | [] => none
  | f :: fs => some (fs.foldl (mergeTwo cfg) f)

theorem runSegmentsFrom_append (cfg : MergeConfig) (adapter : ℕ → Text)
    (cancel : ℕ → Bool) (l₁ : List ℕ) :
    ∀ rest acc called, (∀ i ∈ l₁, cancel i = false) →
      runSegmentsFrom cfg adapter cancel (l₁ ++ rest) acc called =
        runSegmentsFrom cfg adapter cancel rest
          (l₁.foldl (stepAcc cfg adapter) acc) (called ++ l₁) := by
  induction l₁ with
  | nil => intro rest acc called _; simp
  | cons x xs ih =>
    intro rest acc called hno
    have hx : cancel x = false := hno x (List.mem_cons_self x xs)
    rw [List.cons_append, runSegmentsFrom, if_neg (by simp [hx])]
    rw [ih rest _ _ (fun i hi => hno i (List.mem_cons_of_mem _ hi))]
    simp

theorem foldl_stepAcc_some (cfg : MergeConfig) (adapter : ℕ → Text)
    (xs : List ℕ) : ∀ t, xs.foldl (stepAcc cfg adapter) (some t) =
      some ((xs.map adapter).foldl (mergeTwo cfg) t) := by
  induction xs with
  | nil => intro t; rfl
  | cons x xs ih =>
    intro t
    rw [List.foldl_cons, List.map_cons, List.foldl_cons]
    exact ih (mergeTwo cfg t (adapter x))

theorem foldl_stepAcc_none (cfg : MergeConfig) (adapter : ℕ → Text)
    (xs : List ℕ) : xs.foldl (stepAcc cfg adapter) none =
      mergeFragments cfg (xs.map adapter) := by
  cases xs with
  | nil => rfl
  | cons x xs =>
    rw [List.foldl_cons, List.map_cons, mergeFragments]
    exact foldl_stepAcc_some cfg adapter xs (adapter x)

/-- **C8.** Cooperative cancellation: if the cancellation token is clear
through segment `k` and set when checked before segment `k + 1` (with
`k + 1 < n`), the run ends in the cancelled state, the adapter is invoked
exactly for segments `0 … k` — never for `k + 1` or any later segment —
and the merged text built through segment `k` remains retrievable. -/
theorem orchestrator_cancellation (cfg : MergeConfig) (adapter : ℕ → Text)
    (cancel : ℕ → Bool) (n k : ℕ) (hk : k + 1 < n)
    (hbefore : ∀ i, i ≤ k → cancel i = false)
    (hcancel : cancel (k + 1) = true) :
    (runPipeline cfg adapter cancel n).cancelled = true ∧
    (runPipeline cfg adapter cancel n).called = List.range (k + 1) ∧
    (runPipeline cfg adapter cancel n).merged =
      mergeFragments cfg ((List.range (k + 1)).map adapter) := by
  obtain ⟨m, hm⟩ : ∃ m, n = (k + 1) + (m + 1) := ⟨n - k - 2, by omega⟩
  rw [runPipeline, hm, List.range_add, runSegmentsFrom_append _ _ _ _ _ _ _
    (fun i hi => hbefore i (by simpa [Nat.lt_succ_iff] using List.mem_range.mp hi))]
  rw [List.range_succ_eq_map, List.map_cons, runSegmentsFrom,
    if_pos (by simpa using hcancel)]
  refine ⟨rfl, by simp, ?_⟩
  exact foldl_stepAcc_none cfg adapter (List.range (k + 1))

/-- Closed instance of `orchestrator_cancellation`: cancelling a 5-segment
run after segments 0 and 1 complete invokes the adapter only for segments
0 and 1 and keeps their merged text. -/
theorem orchestrator_cancellation_witness :
    (runPipeline { windowSize := 4, minMatch := 3, separator := ['\n'] }
      (fun i => [Char.ofNat (97 + i)]) (fun i => decide (2 ≤ i)) 5).cancelled
        = true ∧
    (runPipeline { windowSize := 4, minMatch := 3, separator := ['\n'] }
      (fun i => [Char.ofNat (97 + i)]) (fun i => decide (2 ≤ i)) 5).called
        = List.range 2 ∧
    (runPipeline { windowSize := 4, minMatch := 3, separator := ['\n'] }
      (fun i => [Char.ofNat (97 + i)]) (fun i => decide (2 ≤ i)) 5).merged
        = mergeFragments { windowSize := 4, minMatch := 3, separator := ['\n'] }
            ((List.range 2).map (fun i => [Char.ofNat (97 + i)])) :=
  orchestrator_cancellation
    { windowSize := 4, minMatch := 3, separator := ['\n'] }
    (fun i => [Char.ofNat (97 + i)]) (fun i => decide (2 ≤ i)) 5 1
    (by decide) (by decide) (by decide)

/-! ## AudioPreparer

Modelled from the spec, §4.1: compress at the target bitrate; if the
result's byte size exceeds the configured threshold, re-encode once at a
lower bitrate; if still over the threshold, fail with
`SizeLimitExceededError` rather than looping.  `encode` maps a bitrate to
the resulting byte size; the second component counts encodes performed. -/

inductive PrepError where
  | unsupportedFormat : PrepError
  | compressionError : PrepError
  | sizeLimitExceeded : PrepError
deriving DecidableEq, Repr

/-- Modelled from the spec: the AudioPreparer size policy (§4.1), absent
from `src/`. -/
def prepareAudio (encode : ℕ → ℕ) (bitrate lowerBitrate threshold : ℕ) :
    Except PrepError ℕ × ℕ :=
  let s₁ := encode bitrate
  if s₁ ≤ threshold then (Except.ok s₁, 1)
  else
    let s₂ := encode lowerBitrate
    if s₂ ≤ threshold then (Except.ok s₂, 2)
    else (Except.error PrepError.sizeLimitExceeded, 2)

/-- **C9.** The AudioPreparer re-encodes at most once: it never performs
more than two encodes; an in-budget first encode is returned directly; an
oversized first encode followed by an in-budget re-encode succeeds with
exactly two encodes; and when both encodes exceed the threshold it fails
with `SizeLimitExceededError` after the single re-encode — the prepare
step always terminates and never loops. -/
theorem preparer_reencodes_once (encode : ℕ → ℕ) (br lbr th : ℕ) :
    ((prepareAudio encode br lbr th).2 ≤ 2) ∧
    (encode br ≤ th →
      prepareAudio encode br lbr th = (Except.ok (encode br), 1)) ∧
    (th < encode br → encode lbr ≤ th →
      prepareAudio encode br lbr th = (Except.ok (encode lbr), 2)) ∧
    (th < encode br → th < encode lbr →
      prepareAudio encode br lbr th =
        (Except.error PrepError.sizeLimitExceeded, 2)) := by
  refine ⟨?_, ?_, ?_, ?_⟩ <;> dsimp only [prepareAudio]
  · split
    · simp
    · split <;> simp
  · intro h1; rw [if_pos h1]
  · intro h1 h2; rw [if_neg (by omega), if_pos h2]
  · intro h1 h2; rw [if_neg (by omega), if_neg (by omega)]

/-- Closed instance of `preparer_reencodes_once`: a 25 MB encode followed
by a 22 MB re-encode against a 20 MB threshold fails with
`SizeLimitExceededError` after exactly two encodes. -/
theorem preparer_reencodes_once_witness :
    prepareAudio (fun b => if b = 128 then 25 else 22) 128 64 20 =
      (Except.error PrepError.sizeLimitExceeded, 2) :=
  (preparer_reencodes_once (fun b => if b = 128 then 25 else 22)
    128 64 20).2.2.2 (by decide) (by decide)

end AITrans
